import Mathlib

/-!
Verification of the box-transit grid-search fitter (Project_3/transit_model.py).

The embedding works over exact rationals: numpy float arrays become `List ℚ`,
`np.inf` becomes the top element of `WithTop ℚ`, and the `None` sentinels of
the returned tuple become `Option` values.  `np.arange (start, stop, step)`
is embedded by its documented exact semantics: `⌈(stop - start) / step⌉`
equally spaced points starting at `start`.
-/

namespace Transit

/-- Minimum of a list of rationals, as computed by `time.min()`.
Python raises on an empty array; the embedding returns the default `0`
in that (never exercised) case. -/
def listMin : List ℚ → ℚ
  | [] => 0
  | x :: xs => xs.foldl min x

/-- Maximum of a list of rationals, as computed by `time.max()`. -/
def listMax : List ℚ → ℚ
  | [] => 0
  | x :: xs => xs.foldl max x

/-- Exact semantics of `np.arange start stop step` for the grids built by the
fitter: the points `start + i * step` for `0 ≤ i < ⌈(stop - start) / step⌉`. -/
def arange (start stop step : ℚ) : List ℚ :=
  (List.range (⌈(stop - start) / step⌉).toNat).map (fun i : ℕ => start + (i : ℚ) * step)

/-- Measurement uncertainty: `sigma` may be one scalar (broadcast to every
point) or a per-point list, mirroring the numpy broadcasting accepted by
`chi2_test`. -/
inductive Uncertainty where
  | scalar (s : ℚ)
  | perPoint (l : List ℚ)

/-- Embedding of `create_flux_model(time, t_transit, d_transit, t1)`:
`np.ones_like(time)` followed by the masked assignment
`flux_model[in_window] = 1.0 - d_transit` with
`in_window = (time >= t1) & (time <= t2)`, `t2 = t1 + t_transit`. -/
def create_flux_model (time : List ℚ) (t_transit d_transit t1 : ℚ) : List ℚ :=
  let t2 := t1 + t_transit
  let flux_model := List.replicate time.length (1 : ℚ)
  let in_window := time.map (fun t => decide (t1 ≤ t) && decide (t ≤ t2))
  List.zipWith (fun b m => if b then 1 - d_transit else m) in_window flux_model

/-- Embedding of `chi2_test(flux, flux_model, sigma)`:
`np.sum(((flux - flux_model) / sigma) ** 2)`, with `sigma` broadcast when it
is a scalar and used pointwise when it is an array. -/
def chi2_test (flux flux_model : List ℚ) (sigma : Uncertainty) : ℚ :=
  match sigma with
  | .scalar s => (List.zipWith (fun f m => ((f - m) / s) ^ 2) flux flux_model).sum
  | .perPoint l =>
      (List.zipWith (fun r s => (r / s) ^ 2) (List.zipWith (fun f m => f - m) flux flux_model) l).sum

/-- The running best-fit state of `fit_transit` together with the model
counter: the fields of the returned 6-tuple
`(best_d, best_T, best_t1, best_chi2, best_model, count)`. -/
structure BestState where
  d : Option ℚ
  T : Option ℚ
  t1 : Option ℚ
  chi2 : WithTop ℚ
  model : Option (List ℚ)
  count : ℕ
deriving DecidableEq

/-- The body of the innermost loop of `fit_transit`: increment `count`,
build the model, score it, and replace the running best exactly when the new
chi-square is strictly smaller. -/
def stepCand (time flux : List ℚ) (sigma : Uncertainty) (T d t1 : ℚ)
    (s : BestState) : BestState :=
  let model := create_flux_model time T d t1
  let chi2 := chi2_test flux model sigma
  if (chi2 : WithTop ℚ) < s.chi2 then
    ⟨some d, some T, some t1, (chi2 : WithTop ℚ), some model, s.count + 1⟩
  else
    { s with count := s.count + 1 }

/-- Embedding of `fit_transit(time, flux, sigma, d_grid, T_grid, t1_step)`:
the triple nested loop over durations, depths and start times with the
physics filters `T ≤ 0 → continue`, `t1_max ≤ t1_min → continue`,
`d < 0 → continue`, accumulating the running best state. -/
def fit_transit (time flux : List ℚ) (sigma : Uncertainty)
    (d_grid T_grid : List ℚ) (t1_step : ℚ) : BestState :=
  let t_min := listMin time
  let t_max := listMax time
  T_grid.foldl (fun s T =>
    if T ≤ 0 then s
    else
      let t1_min := t_min
      let t1_max := t_max - T
      if t1_max ≤ t1_min then s
      else
        let t1_grid := arange t1_min (t1_max + (1/2 : ℚ) * t1_step) t1_step
        d_grid.foldl (fun s d =>
          if d < 0 then s
          else
            t1_grid.foldl (fun s t1 => stepCand time flux sigma T d t1 s) s) s)
    ⟨none, none, none, ⊤, none, 0⟩

/-- A candidate parameter triple `(T, d, t1)`. -/
abbrev Cand := ℚ × ℚ × ℚ

/-- The model light curve of a candidate triple. -/
def candModel (time : List ℚ) (c : Cand) : List ℚ :=
  create_flux_model time c.1 c.2.1 c.2.2

/-- The chi-square score of a candidate triple. -/
def candScore (time flux : List ℚ) (sigma : Uncertainty) (c : Cand) : ℚ :=
  chi2_test flux (candModel time c) sigma

/-- The start-time grid the fitter builds for an accepted duration `T`. -/
def t1GridFor (time : List ℚ) (t1_step T : ℚ) : List ℚ :=
  arange (listMin time) (listMax time - T + (1/2 : ℚ) * t1_step) t1_step

/-- The flat list of all candidate triples that pass the physics filters,
in the fitter's enumeration order: duration (outer), depth (middle),
start time (inner). -/
def candTriples (time : List ℚ) (d_grid T_grid : List ℚ) (t1_step : ℚ) : List Cand :=
  (T_grid.filter (fun T => decide (0 < T) && decide (listMin time < listMax time - T))).flatMap
    (fun T =>
      (d_grid.filter (fun d => decide (0 ≤ d))).flatMap
        (fun d => (t1GridFor time t1_step T).map (fun t1 => (T, d, t1))))

/-- Processing a flat list of candidate triples with the inner-loop body. -/
def runCands (time flux : List ℚ) (sigma : Uncertainty)
    (s : BestState) (l : List Cand) : BestState :=
  l.foldl (fun s c => stepCand time flux sigma c.1 c.2.1 c.2.2 s) s

/-- The returned state agrees with candidate `c`: the parameter fields hold
the triple's components and the model and chi-square are those of the
triple. -/
def Agrees (time flux : List ℚ) (sigma : Uncertainty) (s : BestState) (c : Cand) : Prop :=
  s.d = some c.2.1 ∧ s.T = some c.1 ∧ s.t1 = some c.2.2 ∧
    s.chi2 = ((candScore time flux sigma c : ℚ) : WithTop ℚ) ∧
    s.model = some (candModel time c)

instance (time flux : List ℚ) (sigma : Uncertainty) (s : BestState) (c : Cand) :
    Decidable (Agrees time flux sigma s c) := by
  unfold Agrees; infer_instance

/-- The initial best state: no result found, best chi-square `+∞`, count `0`. -/
def initState : BestState := ⟨none, none, none, ⊤, none, 0⟩

section Bridge

variable (time flux : List ℚ) (sigma : Uncertainty)

lemma stepCand_eq (T d t1 : ℚ) (s : BestState) :
    stepCand time flux sigma T d t1 s =
      if ((candScore time flux sigma (T, d, t1) : ℚ) : WithTop ℚ) < s.chi2 then
        ⟨some d, some T, some t1, ((candScore time flux sigma (T, d, t1) : ℚ) : WithTop ℚ),
          some (candModel time (T, d, t1)), s.count + 1⟩
      else { s with count := s.count + 1 } :=
  rfl

lemma runCands_nil (s : BestState) : runCands time flux sigma s [] = s := rfl

lemma runCands_cons (c : Cand) (l : List Cand) (s : BestState) :
    runCands time flux sigma s (c :: l) =
      runCands time flux sigma (stepCand time flux sigma c.1 c.2.1 c.2.2 s) l := rfl

lemma runCands_append (s : BestState) (l₁ l₂ : List Cand) :
    runCands time flux sigma s (l₁ ++ l₂) =
      runCands time flux sigma (runCands time flux sigma s l₁) l₂ := by
  simp [runCands]

lemma inner_t1_eq (T d : ℚ) (t1s : List ℚ) (s : BestState) :
    t1s.foldl (fun s t1 => stepCand time flux sigma T d t1 s) s =
      runCands time flux sigma s (t1s.map (fun t1 => (T, d, t1))) := by
  simp [runCands, List.foldl_map]

lemma inner_d_eq (T : ℚ) (t1s : List ℚ) (d_grid : List ℚ) (s : BestState) :
    d_grid.foldl (fun s d =>
        if d < 0 then s
        else t1s.foldl (fun s t1 => stepCand time flux sigma T d t1 s) s) s =
      runCands time flux sigma s
        ((d_grid.filter (fun d => decide (0 ≤ d))).flatMap
          (fun d => t1s.map (fun t1 => (T, d, t1)))) := by
  induction d_grid generalizing s with
  | nil => simp [runCands]
  | cons d rest ih =>
      rw [List.foldl_cons]
      by_cases h : d < 0
      · rw [if_pos h, ih]
        have h' : ¬ (0 ≤ d) := not_le.mpr h
        simp [List.filter_cons, h']
      · rw [if_neg h, ih, inner_t1_eq, ← runCands_append]
        have h' : (0 ≤ d) := not_lt.mp h
        simp [List.filter_cons, h']

lemma fit_transit_eq_runCands (d_grid T_grid : List ℚ) (t1_step : ℚ) :
    fit_transit time flux sigma d_grid T_grid t1_step =
      runCands time flux sigma initState (candTriples time d_grid T_grid t1_step) := by
  simp only [fit_transit, candTriples, initState]
  generalize (⟨none, none, none, ⊤, none, 0⟩ : BestState) = s
  induction T_grid generalizing s with
  | nil => simp [runCands]
  | cons T rest ih =>
      rw [List.foldl_cons]
      by_cases hT : T ≤ 0
      · rw [if_pos hT, ih]
        have hT' : ¬ (0 < T) := not_lt.mpr hT
        simp [List.filter_cons, hT']
      · rw [if_neg hT]
        by_cases hW : listMax time - T ≤ listMin time
        · rw [if_pos hW, ih]
          have hW' : ¬ (listMin time < listMax time - T) := not_lt.mpr hW
          simp [List.filter_cons, hW']
        · rw [if_neg hW, ih, inner_d_eq, ← runCands_append]
          have hT' : (0 < T) := not_le.mp hT
          have hW' : (listMin time < listMax time - T) := not_le.mp hW
          simp [List.filter_cons, hT', hW', t1GridFor]

end Bridge

/-- The default candidate used with `List.getD` when indexing candidate lists. -/
def cand0 : Cand := ((0 : ℚ), (0 : ℚ), (0 : ℚ))

section Invariants

variable (time flux : List ℚ) (sigma : Uncertainty)

lemma stepCand_count (T d t1 : ℚ) (s : BestState) :
    (stepCand time flux sigma T d t1 s).count = s.count + 1 := by
  rw [stepCand_eq]; split <;> rfl

lemma stepCand_cases (T d t1 : ℚ) (s : BestState) :
    stepCand time flux sigma T d t1 s = { s with count := s.count + 1 } ∨
    Agrees time flux sigma (stepCand time flux sigma T d t1 s) (T, d, t1) := by
  rw [stepCand_eq]; split
  · exact Or.inr ⟨rfl, rfl, rfl, rfl, rfl⟩
  · exact Or.inl rfl

lemma stepCand_chi2_le (T d t1 : ℚ) (s : BestState) :
    (stepCand time flux sigma T d t1 s).chi2 ≤ s.chi2 := by
  rw [stepCand_eq]; split
  next h => exact le_of_lt h
  next h => exact le_refl _

lemma stepCand_chi2_le_score (T d t1 : ℚ) (s : BestState) :
    (stepCand time flux sigma T d t1 s).chi2 ≤
      ((candScore time flux sigma (T, d, t1) : ℚ) : WithTop ℚ) := by
  rw [stepCand_eq]; split
  next h => exact le_refl _
  next h => exact not_lt.mp h

lemma runCands_count (l : List Cand) : ∀ s : BestState,
    (runCands time flux sigma s l).count = s.count + l.length := by
  induction l with
  | nil => intro s; rfl
  | cons c rest ih =>
      intro s
      rw [runCands_cons, ih, stepCand_count, List.length_cons]
      omega

lemma runCands_chi2_le_start (l : List Cand) : ∀ s : BestState,
    (runCands time flux sigma s l).chi2 ≤ s.chi2 := by
  induction l with
  | nil => intro s; exact le_refl _
  | cons c rest ih =>
      intro s
      rw [runCands_cons]
      exact le_trans (ih _) (stepCand_chi2_le time flux sigma c.1 c.2.1 c.2.2 s)

lemma runCands_chi2_le_all (l : List Cand) : ∀ s : BestState, ∀ c ∈ l,
    (runCands time flux sigma s l).chi2 ≤
      ((candScore time flux sigma c : ℚ) : WithTop ℚ) := by
  induction l with
  | nil => intro s c hc; cases hc
  | cons c0 rest ih =>
      intro s c hc
      rw [runCands_cons]
      rcases List.mem_cons.mp hc with h | h
      · subst h
        exact le_trans (runCands_chi2_le_start time flux sigma rest _)
          (stepCand_chi2_le_score time flux sigma c.1 c.2.1 c.2.2 s)
      · exact ih _ c h

lemma runCands_no_improve (l : List Cand) : ∀ s : BestState,
    (∀ c ∈ l, s.chi2 ≤ ((candScore time flux sigma c : ℚ) : WithTop ℚ)) →
    (runCands time flux sigma s l).d = s.d ∧
    (runCands time flux sigma s l).T = s.T ∧
    (runCands time flux sigma s l).t1 = s.t1 ∧
    (runCands time flux sigma s l).chi2 = s.chi2 ∧
    (runCands time flux sigma s l).model = s.model := by
  induction l with
  | nil => intro s _; exact ⟨rfl, rfl, rfl, rfl, rfl⟩
  | cons c rest ih =>
      intro s h
      rw [runCands_cons]
      have hc : ¬ (((candScore time flux sigma (c.1, c.2.1, c.2.2) : ℚ) : WithTop ℚ) < s.chi2) :=
        not_lt.mpr (h c (List.mem_cons_self c rest))
      have hstep : stepCand time flux sigma c.1 c.2.1 c.2.2 s = { s with count := s.count + 1 } := by
        rw [stepCand_eq, if_neg hc]
      rw [hstep]
      exact ih { s with count := s.count + 1 }
        (fun c' hc' => h c' (List.mem_cons_of_mem c hc'))

lemma runCands_provenance (l : List Cand) : ∀ s : BestState,
    ((runCands time flux sigma s l).d = s.d ∧
     (runCands time flux sigma s l).T = s.T ∧
     (runCands time flux sigma s l).t1 = s.t1 ∧
     (runCands time flux sigma s l).chi2 = s.chi2 ∧
     (runCands time flux sigma s l).model = s.model) ∨
    ∃ c ∈ l, Agrees time flux sigma (runCands time flux sigma s l) c := by
  induction l with
  | nil => intro s; exact Or.inl ⟨rfl, rfl, rfl, rfl, rfl⟩
  | cons c rest ih =>
      intro s
      rw [runCands_cons]
      rcases stepCand_cases time flux sigma c.1 c.2.1 c.2.2 s with hid | hag0
      · rw [hid]
        rcases ih { s with count := s.count + 1 } with hsame | ⟨c', hc', hag⟩
        · exact Or.inl hsame
        · exact Or.inr ⟨c', List.mem_cons_of_mem c hc', hag⟩
      · rcases ih (stepCand time flux sigma c.1 c.2.1 c.2.2 s) with hsame | ⟨c', hc', hag⟩
        · exact Or.inr ⟨c, List.mem_cons_self c rest,
            ⟨hsame.1.trans hag0.1, hsame.2.1.trans hag0.2.1, hsame.2.2.1.trans hag0.2.2.1,
             hsame.2.2.2.1.trans hag0.2.2.2.1, hsame.2.2.2.2.trans hag0.2.2.2.2⟩⟩
        · exact Or.inr ⟨c', List.mem_cons_of_mem c hc', hag⟩

lemma runCands_first_min (l : List Cand) : ∀ (s : BestState) (j : ℕ), j < l.length →
    (∀ i, i < l.length →
      candScore time flux sigma (l.getD j cand0) ≤ candScore time flux sigma (l.getD i cand0)) →
    (∀ i, i < j →
      candScore time flux sigma (l.getD j cand0) < candScore time flux sigma (l.getD i cand0)) →
    ((candScore time flux sigma (l.getD j cand0) : ℚ) : WithTop ℚ) < s.chi2 →
    Agrees time flux sigma (runCands time flux sigma s l) (l.getD j cand0) := by
  induction l with
  | nil => intro s j hj _ _ _; exact absurd hj (Nat.not_lt_zero j)
  | cons c rest ih =>
      intro s j hj hmin hfirst hlt
      rw [runCands_cons]
      cases j with
      | zero =>
          rw [List.getD_cons_zero] at hlt hmin ⊢
          have hsel : stepCand time flux sigma c.1 c.2.1 c.2.2 s =
              ⟨some c.2.1, some c.1, some c.2.2,
               ((candScore time flux sigma (c.1, c.2.1, c.2.2) : ℚ) : WithTop ℚ),
               some (candModel time (c.1, c.2.1, c.2.2)), s.count + 1⟩ := by
            rw [stepCand_eq, if_pos hlt]
          rw [hsel]
          have hno := runCands_no_improve time flux sigma rest
            ⟨some c.2.1, some c.1, some c.2.2,
             ((candScore time flux sigma (c.1, c.2.1, c.2.2) : ℚ) : WithTop ℚ),
             some (candModel time (c.1, c.2.1, c.2.2)), s.count + 1⟩ ?_
          · exact ⟨hno.1, hno.2.1, hno.2.2.1, hno.2.2.2.1, hno.2.2.2.2⟩
          · intro c' hc'
            rcases List.mem_iff_get.mp hc' with ⟨⟨i, hi⟩, rfl⟩
            have h := hmin (i + 1) (by simpa using Nat.succ_lt_succ hi)
            rw [List.getD_cons_succ, List.getD_eq_getElem rest cand0 hi] at h
            exact WithTop.coe_le_coe.mpr h
      | succ j' =>
          have hj' : j' < rest.length := Nat.lt_of_succ_lt_succ hj
          rw [List.getD_cons_succ] at hlt hmin hfirst ⊢
          have htc : candScore time flux sigma (rest.getD j' cand0) <
              candScore time flux sigma c := by
            have h := hfirst 0 (Nat.succ_pos j')
            rwa [List.getD_cons_zero] at h
          have hmin' : ∀ i, i < rest.length →
              candScore time flux sigma (rest.getD j' cand0) ≤
                candScore time flux sigma (rest.getD i cand0) := by
            intro i hi
            have h := hmin (i + 1) (by simpa using Nat.succ_lt_succ hi)
            rwa [List.getD_cons_succ] at h
          have hfirst' : ∀ i, i < j' →
              candScore time flux sigma (rest.getD j' cand0) <
                candScore time flux sigma (rest.getD i cand0) := by
            intro i hi
            have h := hfirst (i + 1) (Nat.succ_lt_succ hi)
            rwa [List.getD_cons_succ] at h
          rcases stepCand_cases time flux sigma c.1 c.2.1 c.2.2 s with hid | hag0
          · rw [hid]
            exact ih { s with count := s.count + 1 } j' hj' hmin' hfirst' hlt
          · have hchi : (stepCand time flux sigma c.1 c.2.1 c.2.2 s).chi2 =
                ((candScore time flux sigma c : ℚ) : WithTop ℚ) := hag0.2.2.2.1
            refine ih _ j' hj' hmin' hfirst' ?_
            rw [hchi]
            exact_mod_cast WithTop.coe_lt_coe.mpr htc

lemma candTriples_mem (d_grid T_grid : List ℚ) (t1_step : ℚ) (c : Cand)
    (hc : c ∈ candTriples time d_grid T_grid t1_step) :
    c.1 ∈ T_grid ∧ 0 < c.1 ∧ listMin time < listMax time - c.1 ∧
    c.2.1 ∈ d_grid ∧ 0 ≤ c.2.1 ∧ c.2.2 ∈ t1GridFor time t1_step c.1 := by
  unfold candTriples at hc
  rcases List.mem_flatMap.mp hc with ⟨T, hT, hc2⟩
  rcases List.mem_flatMap.mp hc2 with ⟨d, hd, hc3⟩
  rcases List.mem_map.mp hc3 with ⟨t1, ht1, rfl⟩
  rcases List.mem_filter.mp hT with ⟨hTmem, hTp⟩
  rcases List.mem_filter.mp hd with ⟨hdmem, hdp⟩
  simp only [Bool.and_eq_true, decide_eq_true_eq] at hTp
  simp only [decide_eq_true_eq] at hdp
  exact ⟨hTmem, hTp.1, hTp.2, hdmem, hdp, ht1⟩

lemma arange_mem_bounds (start stop step : ℚ) (hstep : 0 < step) (x : ℚ)
    (hx : x ∈ arange start stop step) :
    (∃ i : ℕ, x = start + (i : ℚ) * step) ∧ start ≤ x ∧ x < stop := by
  unfold arange at hx
  rcases List.mem_map.mp hx with ⟨i, hi, rfl⟩
  have hi' : i < (⌈(stop - start) / step⌉).toNat := List.mem_range.mp hi
  refine ⟨⟨i, rfl⟩, ?_, ?_⟩
  · have h0 : 0 ≤ (i : ℚ) * step := mul_nonneg (Nat.cast_nonneg i) hstep.le
    linarith
  · have h1 : (i : ℤ) < ⌈(stop - start) / step⌉ := Int.lt_toNat.mp hi'
    have h2 : ((i : ℤ) : ℚ) + 1 ≤ ((⌈(stop - start) / step⌉ : ℤ) : ℚ) := by
      exact_mod_cast Int.add_one_le_iff.mpr h1
    have h3 : ((⌈(stop - start) / step⌉ : ℤ) : ℚ) < (stop - start) / step + 1 :=
      Int.ceil_lt_add_one ((stop - start) / step)
    have h4 : (i : ℚ) < (stop - start) / step := by push_cast at h2 ⊢; linarith
    have h5 : (i : ℚ) * step < stop - start := (lt_div_iff₀ hstep).mp h4
    linarith

end Invariants

lemma sum_map_const {α : Type} (l : List α) (k : ℕ) : (l.map fun _ => k).sum = l.length * k := by
  induction l with
  | nil => simp
  | cons a t ih => simp [ih, Nat.succ_mul]; omega

lemma create_flux_model_nil (t_transit d_transit t1 : ℚ) :
    create_flux_model [] t_transit d_transit t1 = [] := rfl

lemma create_flux_model_cons (t : ℚ) (time : List ℚ) (t_transit d_transit t1 : ℚ) :
    create_flux_model (t :: time) t_transit d_transit t1 =
      (if t1 ≤ t ∧ t ≤ t1 + t_transit then 1 - d_transit else 1) ::
        create_flux_model time t_transit d_transit t1 := by
  simp only [create_flux_model, List.length_cons, List.replicate_succ, List.map_cons,
    List.zipWith_cons_cons]
  congr 1
  by_cases h1 : t1 ≤ t <;> by_cases h2 : t ≤ t1 + t_transit <;> simp [h1, h2]

/-- The spec's description of the per-point uncertainty `sigma_i`: the scalar
broadcast to every point, or the i-th element of the uncertainty sequence. -/
def sigmaBroadcast : Uncertainty → ℕ → ℚ
  | .scalar s, _ => s
  | .perPoint l, i => l.getD i 0

/-- The spec's precondition on the uncertainty input: one positive scalar, or
an equal-length sequence of strictly positive values. -/
def SigmaPositive : Uncertainty → ℕ → Prop
  | .scalar s, _ => 0 < s
  | .perPoint l, n => l.length = n ∧ ∀ x ∈ l, 0 < x

instance (sigma : Uncertainty) (n : ℕ) : Decidable (SigmaPositive sigma n) := by
  cases sigma <;> unfold SigmaPositive <;> infer_instance

lemma chi2_scalar_eq (flux : List ℚ) : ∀ (model : List ℚ), model.length = flux.length →
    ∀ s : ℚ, (List.zipWith (fun f m => ((f - m) / s) ^ 2) flux model).sum =
      ∑ i ∈ Finset.range flux.length, ((flux.getD i 0 - model.getD i 0) / s) ^ 2 := by
  induction flux with
  | nil =>
      intro model h s
      rw [List.length_eq_zero.mp h]
      simp
  | cons f fs ih =>
      intro model h s
      cases model with
      | nil => simp at h
      | cons m ms =>
          simp only [List.length_cons, Nat.succ.injEq] at h
          rw [List.zipWith_cons_cons, List.sum_cons, List.length_cons,
            Finset.sum_range_succ' (fun i => ((((f :: fs).getD i 0) - ((m :: ms).getD i 0)) / s) ^ 2) fs.length]
          simp only [List.getD_cons_succ, List.getD_cons_zero]
          rw [ih ms h s]
          ring

lemma chi2_perpoint_eq (flux : List ℚ) : ∀ (model sig : List ℚ),
    model.length = flux.length → sig.length = flux.length →
    (List.zipWith (fun r s => (r / s) ^ 2)
        (List.zipWith (fun f m => f - m) flux model) sig).sum =
      ∑ i ∈ Finset.range flux.length,
        ((flux.getD i 0 - model.getD i 0) / sig.getD i 0) ^ 2 := by
  induction flux with
  | nil =>
      intro model sig h1 h2
      rw [List.length_eq_zero.mp h1]
      simp
  | cons f fs ih =>
      intro model sig h1 h2
      cases model with
      | nil => simp at h1
      | cons m ms =>
          cases sig with
          | nil => simp at h2
          | cons sg sgs =>
              simp only [List.length_cons, Nat.succ.injEq] at h1 h2
              rw [List.zipWith_cons_cons, List.zipWith_cons_cons, List.sum_cons, List.length_cons,
                Finset.sum_range_succ'
                  (fun i => ((((f :: fs).getD i 0) - ((m :: ms).getD i 0)) / ((sg :: sgs).getD i 0)) ^ 2) fs.length]
              simp only [List.getD_cons_succ, List.getD_cons_zero]
              rw [ih ms sgs h1 h2]
              ring

/-- C7: for every time grid and all real parameters `(T, d, t1)`, including
negative `T` or negative `d`, `create_flux_model` is total and returns a
sequence of the same length as the time grid whose i-th element is
`1 - d` when `t1 ≤ time_i ≤ t1 + T` (both boundaries inclusive) and `1`
otherwise. -/
theorem create_flux_model_spec (time : List ℚ) (t_transit d_transit t1 : ℚ) :
    (create_flux_model time t_transit d_transit t1).length = time.length ∧
    ∀ i : ℕ, (create_flux_model time t_transit d_transit t1)[i]? =
      time[i]?.map (fun t => if t1 ≤ t ∧ t ≤ t1 + t_transit then 1 - d_transit else 1) := by
  constructor
  · induction time with
    | nil => rfl
    | cons t ts ih => rw [create_flux_model_cons]; simp [ih]
  · intro i
    induction time generalizing i with
    | nil => simp [create_flux_model_nil]
    | cons t ts ih =>
        rw [create_flux_model_cons]
        cases i with
        | zero => simp
        | succ i' => simpa using ih i'

/-- C8: for observed flux, an equal-length predicted flux, and uncertainty
given as one positive scalar or an equal-length list of strictly positive
values, `chi2_test` returns the sum over all i of
`((observed_i - predicted_i) / sigma_i)^2` with `sigma_i` the broadcast
scalar or the i-th list element, and the result is non-negative. -/
theorem chi2_test_spec (flux model : List ℚ) (sigma : Uncertainty)
    (hlen : model.length = flux.length) (hsig : SigmaPositive sigma flux.length) :
    chi2_test flux model sigma =
      (∑ i ∈ Finset.range flux.length,
        ((flux.getD i 0 - model.getD i 0) / sigmaBroadcast sigma i) ^ 2) ∧
    0 ≤ chi2_test flux model sigma := by
  have heq : chi2_test flux model sigma =
      ∑ i ∈ Finset.range flux.length,
        ((flux.getD i 0 - model.getD i 0) / sigmaBroadcast sigma i) ^ 2 := by
    cases sigma with
    | scalar s => exact chi2_scalar_eq flux model hlen s
    | perPoint l => exact chi2_perpoint_eq flux model l hlen hsig.1
  refine ⟨heq, ?_⟩
  rw [heq]
  exact Finset.sum_nonneg (fun i _ => sq_nonneg _)

theorem chi2_test_spec_witness :
    ([(1 : ℚ), 1].length = [(1 : ℚ), 2].length ∧ SigmaPositive (.perPoint [1, 2]) [(1 : ℚ), 2].length) ∧
    (chi2_test [(1 : ℚ), 2] [1, 1] (.perPoint [1, 2]) =
      (∑ i ∈ Finset.range [(1 : ℚ), 2].length,
        (([(1 : ℚ), 2].getD i 0 - [(1 : ℚ), 1].getD i 0) / sigmaBroadcast (.perPoint [1, 2]) i) ^ 2) ∧
    0 ≤ chi2_test [(1 : ℚ), 2] [1, 1] (.perPoint [1, 2])) :=
  ⟨⟨by with_unfolding_all decide, by with_unfolding_all decide⟩,
   chi2_test_spec [(1 : ℚ), 2] [1, 1] (.perPoint [1, 2]) (by with_unfolding_all decide)
     (by with_unfolding_all decide)⟩

lemma fit_found_agrees (time flux : List ℚ) (sigma : Uncertainty)
    (d_grid T_grid : List ℚ) (t1_step : ℚ) (d : ℚ)
    (hd : (fit_transit time flux sigma d_grid T_grid t1_step).d = some d) :
    ∃ c ∈ candTriples time d_grid T_grid t1_step,
      Agrees time flux sigma (fit_transit time flux sigma d_grid T_grid t1_step) c := by
  rw [fit_transit_eq_runCands] at hd ⊢
  rcases runCands_provenance time flux sigma (candTriples time d_grid T_grid t1_step) initState
    with hsame | h
  · rw [hsame.1] at hd
    simp [initState] at hd
  · exact h

/-- C1: whenever at least one candidate triple passes the filters,
`fit_transit` returns a triple that is one of the enumerated candidate
triples, with its chi-square, and the returned chi-square is less than or
equal to the score of every evaluated candidate triple. -/
theorem fit_transit_returns_global_min (time flux : List ℚ) (sigma : Uncertainty)
    (d_grid T_grid : List ℚ) (t1_step : ℚ)
    (hne : candTriples time d_grid T_grid t1_step ≠ []) :
    (∃ c ∈ candTriples time d_grid T_grid t1_step,
      (fit_transit time flux sigma d_grid T_grid t1_step).d = some c.2.1 ∧
      (fit_transit time flux sigma d_grid T_grid t1_step).T = some c.1 ∧
      (fit_transit time flux sigma d_grid T_grid t1_step).t1 = some c.2.2 ∧
      (fit_transit time flux sigma d_grid T_grid t1_step).chi2 =
        ((candScore time flux sigma c : ℚ) : WithTop ℚ)) ∧
    ∀ c ∈ candTriples time d_grid T_grid t1_step,
      (fit_transit time flux sigma d_grid T_grid t1_step).chi2 ≤
        ((candScore time flux sigma c : ℚ) : WithTop ℚ) := by
  rw [fit_transit_eq_runCands]
  constructor
  · rcases runCands_provenance time flux sigma (candTriples time d_grid T_grid t1_step) initState
      with hsame | ⟨c, hc, hag⟩
    · exfalso
      rcases List.exists_mem_of_ne_nil _ hne with ⟨c, hc⟩
      have h := runCands_chi2_le_all time flux sigma (candTriples time d_grid T_grid t1_step)
        initState c hc
      rw [hsame.2.2.2.1] at h
      exact WithTop.not_top_le_coe _ h
    · exact ⟨c, hc, hag.1, hag.2.1, hag.2.2.1, hag.2.2.2.1⟩
  · intro c hc
    exact runCands_chi2_le_all time flux sigma (candTriples time d_grid T_grid t1_step)
      initState c hc

theorem fit_transit_returns_global_min_witness :
    candTriples [0, 1] [0] [1/2] (1/2) ≠ [] ∧
    ((∃ c ∈ candTriples [0, 1] [0] [1/2] (1/2),
      (fit_transit [0, 1] [1, 1] (.scalar 1) [0] [1/2] (1/2)).d = some c.2.1 ∧
      (fit_transit [0, 1] [1, 1] (.scalar 1) [0] [1/2] (1/2)).T = some c.1 ∧
      (fit_transit [0, 1] [1, 1] (.scalar 1) [0] [1/2] (1/2)).t1 = some c.2.2 ∧
      (fit_transit [0, 1] [1, 1] (.scalar 1) [0] [1/2] (1/2)).chi2 =
        ((candScore [0, 1] [1, 1] (.scalar 1) c : ℚ) : WithTop ℚ)) ∧
    ∀ c ∈ candTriples [0, 1] [0] [1/2] (1/2),
      (fit_transit [0, 1] [1, 1] (.scalar 1) [0] [1/2] (1/2)).chi2 ≤
        ((candScore [0, 1] [1, 1] (.scalar 1) c : ℚ) : WithTop ℚ)) :=
  ⟨by with_unfolding_all decide, fit_transit_returns_global_min [0, 1] [1, 1] (.scalar 1) [0] [1/2] (1/2) (by with_unfolding_all decide)⟩

/-- C3: whenever `fit_transit` returns a found result, the returned depth is
non-negative and the returned duration is strictly positive, no matter how
unphysical the supplied grids are. -/
theorem fit_transit_physical (time flux : List ℚ) (sigma : Uncertainty)
    (d_grid T_grid : List ℚ) (t1_step : ℚ) (d T : ℚ)
    (hd : (fit_transit time flux sigma d_grid T_grid t1_step).d = some d)
    (hT : (fit_transit time flux sigma d_grid T_grid t1_step).T = some T) :
    0 ≤ d ∧ 0 < T := by
  rcases fit_found_agrees time flux sigma d_grid T_grid t1_step d hd with ⟨c, hc, hag⟩
  have hmem := candTriples_mem time d_grid T_grid t1_step c hc
  have hd' : c.2.1 = d := by
    rw [hag.1] at hd
    exact Option.some_injective _ hd
  have hT' : c.1 = T := by
    rw [hag.2.1] at hT
    exact Option.some_injective _ hT
  rw [← hd', ← hT']
  exact ⟨hmem.2.2.2.2.1, hmem.2.1⟩

theorem fit_transit_physical_witness :
    (fit_transit [0, 1] [1, 9/10] (.scalar 1) [-1, 1/10] [-1, 2/5] 1).d = some (1/10) ∧
    ((0 : ℚ) ≤ 1/10 ∧ (0 : ℚ) < 2/5) :=
  ⟨by with_unfolding_all decide,
   fit_transit_physical [0, 1] [1, 9/10] (.scalar 1) [-1, 1/10] [-1, 2/5] 1 (1/10) (2/5)
     (by with_unfolding_all decide) (by with_unfolding_all decide)⟩

/-- C9: whenever `fit_transit` returns a found result, the returned model is
exactly `create_flux_model time T d t1` for the returned triple, and the
returned chi-square is exactly `chi2_test flux model sigma` for that model. -/
theorem fit_transit_consistent (time flux : List ℚ) (sigma : Uncertainty)
    (d_grid T_grid : List ℚ) (t1_step : ℚ) (d T t1 : ℚ)
    (hd : (fit_transit time flux sigma d_grid T_grid t1_step).d = some d)
    (hT : (fit_transit time flux sigma d_grid T_grid t1_step).T = some T)
    (ht1 : (fit_transit time flux sigma d_grid T_grid t1_step).t1 = some t1) :
    (fit_transit time flux sigma d_grid T_grid t1_step).model =
      some (create_flux_model time T d t1) ∧
    (fit_transit time flux sigma d_grid T_grid t1_step).chi2 =
      ((chi2_test flux (create_flux_model time T d t1) sigma : ℚ) : WithTop ℚ) := by
  rcases fit_found_agrees time flux sigma d_grid T_grid t1_step d hd with ⟨c, _, hag⟩
  have hd' : c.2.1 = d := by
    rw [hag.1] at hd
    exact Option.some_injective _ hd
  have hT' : c.1 = T := by
    rw [hag.2.1] at hT
    exact Option.some_injective _ hT
  have ht1' : c.2.2 = t1 := by
    rw [hag.2.2.1] at ht1
    exact Option.some_injective _ ht1
  have hmodel : candModel time c = create_flux_model time T d t1 := by
    rw [candModel, hd', hT', ht1']
  refine ⟨?_, ?_⟩
  · rw [hag.2.2.2.2, hmodel]
  · rw [hag.2.2.2.1, candScore, hmodel]

theorem fit_transit_consistent_witness :
    (fit_transit [0, 1] [1, 9/10] (.scalar 1) [1/10] [2/5] 1).t1 = some 1 ∧
    ((fit_transit [0, 1] [1, 9/10] (.scalar 1) [1/10] [2/5] 1).model =
      some (create_flux_model [0, 1] (2/5) (1/10) 1) ∧
    (fit_transit [0, 1] [1, 9/10] (.scalar 1) [1/10] [2/5] 1).chi2 =
      ((chi2_test [1, 9/10] (create_flux_model [0, 1] (2/5) (1/10) 1) (.scalar 1) : ℚ) : WithTop ℚ)) :=
  ⟨by with_unfolding_all decide,
   fit_transit_consistent [0, 1] [1, 9/10] (.scalar 1) [1/10] [2/5] 1 (1/10) (2/5) 1
     (by with_unfolding_all decide) (by with_unfolding_all decide) (by with_unfolding_all decide)⟩

/-- C10: the count returned by `fit_transit` does not depend on the observed
flux values or on the uncertainty: two invocations with the same time grid,
depth grid, duration grid and start-time step but arbitrary flux and sigma
return the same count. -/
theorem fit_transit_count_noninterference (time flux1 flux2 : List ℚ)
    (sigma1 sigma2 : Uncertainty) (d_grid T_grid : List ℚ) (t1_step : ℚ) :
    (fit_transit time flux1 sigma1 d_grid T_grid t1_step).count =
      (fit_transit time flux2 sigma2 d_grid T_grid t1_step).count := by
  rw [fit_transit_eq_runCands, fit_transit_eq_runCands, runCands_count, runCands_count]

/-- C2, counterexample: with `time = [0, 1]`, `T = 2/5` and `t1_step = 1`,
the constructed start-time grid contains the start time `1`, which exceeds
`t1_max = t_max - T = 3/5`; with `flux = [1, 9/10]` the fitter selects
exactly this start time, so `best_t1 + best_T = 7/5` exceeds the maximum
observed time `t_max = 1`. -/
theorem start_time_grid_exceeds_window :
    (1 : ℚ) ∈ t1GridFor [0, 1] 1 (2/5) ∧
    ¬ ((1 : ℚ) ≤ listMax [0, 1] - 2/5) ∧
    ¬ ((listMax [0, 1] - 2/5) ∈ t1GridFor [0, 1] 1 (2/5)) ∧
    (fit_transit [0, 1] [1, 9/10] (.scalar 1) [1/10] [2/5] 1).t1 = some 1 ∧
    (fit_transit [0, 1] [1, 9/10] (.scalar 1) [1/10] [2/5] 1).T = some (2/5) ∧
    ¬ ((1 : ℚ) + 2/5 ≤ listMax [0, 1]) := by
  with_unfolding_all decide

/-- C2, amended: for positive `t1_step`, the candidate start-time grid for a
duration `T` consists of the values `t1_min + i * t1_step`; every candidate
start time `t1` satisfies `t1_min ≤ t1` and `t1 < t1_max + t1_step/2`
(a candidate may exceed `t1_max` by up to half a step), and accordingly on a
found result `t_min ≤ best_t1` and `best_t1 + best_T < t_max + t1_step/2`. -/
theorem fit_transit_window_within_half_step (time flux : List ℚ) (sigma : Uncertainty)
    (d_grid T_grid : List ℚ) (t1_step : ℚ) (hstep : 0 < t1_step) :
    (∀ T : ℚ, ∀ t1 ∈ t1GridFor time t1_step T,
      (∃ i : ℕ, t1 = listMin time + (i : ℚ) * t1_step) ∧
      listMin time ≤ t1 ∧ t1 < listMax time - T + (1/2 : ℚ) * t1_step) ∧
    (∀ d T t1 : ℚ,
      (fit_transit time flux sigma d_grid T_grid t1_step).d = some d →
      (fit_transit time flux sigma d_grid T_grid t1_step).T = some T →
      (fit_transit time flux sigma d_grid T_grid t1_step).t1 = some t1 →
      listMin time ≤ t1 ∧ t1 + T < listMax time + (1/2 : ℚ) * t1_step) := by
  have hgrid : ∀ T : ℚ, ∀ t1 ∈ t1GridFor time t1_step T,
      (∃ i : ℕ, t1 = listMin time + (i : ℚ) * t1_step) ∧
      listMin time ≤ t1 ∧ t1 < listMax time - T + (1/2 : ℚ) * t1_step := by
    intro T t1 ht1
    exact arange_mem_bounds (listMin time) (listMax time - T + (1/2 : ℚ) * t1_step)
      t1_step hstep t1 ht1
  refine ⟨hgrid, ?_⟩
  intro d T t1 hd hT ht1
  rcases fit_found_agrees time flux sigma d_grid T_grid t1_step d hd with ⟨c, hc, hag⟩
  have hmem := candTriples_mem time d_grid T_grid t1_step c hc
  have hT' : c.1 = T := by
    rw [hag.2.1] at hT
    exact Option.some_injective _ hT
  have ht1' : c.2.2 = t1 := by
    rw [hag.2.2.1] at ht1
    exact Option.some_injective _ ht1
  have hb := hgrid c.1 c.2.2 hmem.2.2.2.2.2
  rw [hT', ht1'] at hb
  exact ⟨hb.2.1, by linarith [hb.2.2]⟩

theorem fit_transit_window_within_half_step_witness :
    (0 : ℚ) < 1 ∧
    ((∀ T : ℚ, ∀ t1 ∈ t1GridFor [0, 1] 1 T,
      (∃ i : ℕ, t1 = listMin [0, 1] + (i : ℚ) * 1) ∧
      listMin [0, 1] ≤ t1 ∧ t1 < listMax [0, 1] - T + (1/2 : ℚ) * 1) ∧
    (∀ d T t1 : ℚ,
      (fit_transit [0, 1] [1, 9/10] (.scalar 1) [1/10] [2/5] 1).d = some d →
      (fit_transit [0, 1] [1, 9/10] (.scalar 1) [1/10] [2/5] 1).T = some T →
      (fit_transit [0, 1] [1, 9/10] (.scalar 1) [1/10] [2/5] 1).t1 = some t1 →
      listMin [0, 1] ≤ t1 ∧ t1 + T < listMax [0, 1] + (1/2 : ℚ) * 1)) :=
  ⟨by norm_num,
   fit_transit_window_within_half_step [0, 1] [1, 9/10] (.scalar 1) [1/10] [2/5] 1 (by norm_num)⟩

/-- C4: the count returned by `fit_transit` equals the closed-form sum, over
the durations that pass the filters `T > 0` and `t_max - T > t_min`, of the
number of non-negative depths in `d_grid` times the length of the start-time
grid constructed for that duration. -/
theorem fit_transit_count_closed_form (time flux : List ℚ) (sigma : Uncertainty)
    (d_grid T_grid : List ℚ) (t1_step : ℚ) :
    (fit_transit time flux sigma d_grid T_grid t1_step).count =
      ((T_grid.filter (fun T => decide (0 < T) && decide (listMin time < listMax time - T))).map
        (fun T => (d_grid.filter (fun d => decide (0 ≤ d))).length *
          (t1GridFor time t1_step T).length)).sum := by
  rw [fit_transit_eq_runCands, runCands_count]
  have h0 : initState.count = 0 := rfl
  rw [h0, Nat.zero_add]
  unfold candTriples
  rw [List.length_flatMap]
  congr 1
  apply List.map_congr_left
  intro T _
  simp only [Function.comp_apply]
  rw [List.length_flatMap]
  have h : (d_grid.filter (fun d => decide (0 ≤ d))).map
      (List.length ∘ fun d => (t1GridFor time t1_step T).map (fun t1 => (T, d, t1))) =
      (d_grid.filter (fun d => decide (0 ≤ d))).map
        (fun _ => (t1GridFor time t1_step T).length) := by
    apply List.map_congr_left
    intro d _
    simp
  rw [h, sum_map_const]

/-- C5: if every duration in `T_grid` is non-positive, or no positive
duration fits inside the observed window, then `fit_transit` returns exactly
the no-result sentinel `(None, None, None, +infinity, None, 0)`; being a
total function, it raises no exception. -/
theorem fit_transit_exhausted (time flux : List ℚ) (sigma : Uncertainty)
    (d_grid T_grid : List ℚ) (t1_step : ℚ)
    (h : ∀ T ∈ T_grid, T ≤ 0 ∨ listMax time - T ≤ listMin time) :
    fit_transit time flux sigma d_grid T_grid t1_step =
      ⟨none, none, none, ⊤, none, 0⟩ := by
  rw [fit_transit_eq_runCands]
  have hnil : candTriples time d_grid T_grid t1_step = [] := by
    unfold candTriples
    have hfil : T_grid.filter
        (fun T => decide (0 < T) && decide (listMin time < listMax time - T)) = [] := by
      rw [List.filter_eq_nil_iff]
      intro T hT
      rcases h T hT with h1 | h1 <;> simp [not_lt.mpr h1]
    rw [hfil]
    rfl
  rw [hnil]
  rfl

theorem fit_transit_exhausted_witness :
    (∀ T ∈ [(0 : ℚ), -1, 5], T ≤ 0 ∨ listMax [0, 1] - T ≤ listMin [0, 1]) ∧
    fit_transit [0, 1] [1, 1] (.scalar 1) [0] [(0 : ℚ), -1, 5] (1/2) =
      ⟨none, none, none, ⊤, none, 0⟩ :=
  ⟨by with_unfolding_all decide,
   fit_transit_exhausted [0, 1] [1, 1] (.scalar 1) [0] [(0 : ℚ), -1, 5] (1/2)
     (by with_unfolding_all decide)⟩

/-- C6: because the running best is replaced only on a strictly smaller
chi-square, when several candidate triples attain the minimal chi-square the
fitter returns the one that occurs first in enumeration order (duration
outer, depth middle, start time inner): if position `j` of the flat
candidate list has minimal score and strictly beats every earlier position,
the returned triple is the one at position `j`. -/
theorem fit_transit_first_tie_wins (time flux : List ℚ) (sigma : Uncertainty)
    (d_grid T_grid : List ℚ) (t1_step : ℚ) (j : ℕ)
    (hj : j < (candTriples time d_grid T_grid t1_step).length)
    (hmin : ∀ i, i < (candTriples time d_grid T_grid t1_step).length →
      candScore time flux sigma ((candTriples time d_grid T_grid t1_step).getD j cand0) ≤
        candScore time flux sigma ((candTriples time d_grid T_grid t1_step).getD i cand0))
    (hfirst : ∀ i, i < j →
      candScore time flux sigma ((candTriples time d_grid T_grid t1_step).getD j cand0) <
        candScore time flux sigma ((candTriples time d_grid T_grid t1_step).getD i cand0)) :
    (fit_transit time flux sigma d_grid T_grid t1_step).d =
      some ((candTriples time d_grid T_grid t1_step).getD j cand0).2.1 ∧
    (fit_transit time flux sigma d_grid T_grid t1_step).T =
      some ((candTriples time d_grid T_grid t1_step).getD j cand0).1 ∧
    (fit_transit time flux sigma d_grid T_grid t1_step).t1 =
      some ((candTriples time d_grid T_grid t1_step).getD j cand0).2.2 := by
  rw [fit_transit_eq_runCands]
  have h := runCands_first_min time flux sigma (candTriples time d_grid T_grid t1_step)
    initState j hj hmin hfirst (WithTop.coe_lt_top _)
  exact ⟨h.1, h.2.1, h.2.2.1⟩

theorem fit_transit_first_tie_wins_witness :
    (fit_transit [0, 1] [1, 1] (.scalar 1) [0, 0] [1/2] (1/2)).d =
      some ((candTriples [0, 1] [0, 0] [1/2] (1/2)).getD 0 cand0).2.1 ∧
    (fit_transit [0, 1] [1, 1] (.scalar 1) [0, 0] [1/2] (1/2)).T =
      some ((candTriples [0, 1] [0, 0] [1/2] (1/2)).getD 0 cand0).1 ∧
    (fit_transit [0, 1] [1, 1] (.scalar 1) [0, 0] [1/2] (1/2)).t1 =
      some ((candTriples [0, 1] [0, 0] [1/2] (1/2)).getD 0 cand0).2.2 :=
  fit_transit_first_tie_wins [0, 1] [1, 1] (.scalar 1) [0, 0] [1/2] (1/2) 0
    (by with_unfolding_all decide) (by with_unfolding_all decide)
    (by with_unfolding_all decide)

end Transit
